import Mathlib

/-!
Verification of the duplicate-issue detection engine of the trakly backend
(`app/services/duplicate_detection_service.py` and the `check_duplicates`
orchestrator in `app/services/issue_service.py`).

Modelling conventions used throughout this file:

* A Python `str` is modelled as a `List Nat` of Unicode code points
  (`PyStr`).  Character classes (`\s`, `\w`, `[a-z0-9]`) follow the
  Python regex semantics on these code points; the Unicode-specific parts
  of `str.lower` outside ASCII are modelled as the identity, which is the
  only case exercised by the engine (non-ASCII letters are stripped by the
  normalizer in either reading).
* Python floating point arithmetic is idealised as exact arithmetic in a
  linear ordered field (instantiated at `ℚ` or `ℝ` in the theorems), the
  standard shallow-embedding choice for numeric code.
* `hashlib.sha256(...).hexdigest()` is an external, deterministic library
  function; it is modelled as an arbitrary function parameter
  `sha256hex : PyStr → PyStr`, so every theorem about hashing holds for
  the real digest function in particular.
* The scikit-learn `TfidfVectorizer` / `cosine_similarity` calls are
  external library functions as well; they are modelled mathematically
  (token counts weighted per term, cosine similarity of the resulting
  vectors) following the configuration in the source
  (`lowercase=True`, word tokens of length ≥ 2, `ngram_range=(1, 2)`,
  `stop_words` removed, raising `ValueError` on an empty vocabulary).
  The per-term positive idf weight is a function parameter `w`, and the
  square root used by the cosine is a function parameter `sq`
  (instantiated with `Real.sqrt` where its properties matter).  The
  `max_features=1000` vocabulary cap is not modelled: it binds only for
  corpora with more than 1000 distinct terms and sklearn fixes no
  selection order the spec describes.
-/

/-- A Python string, as its list of Unicode code points. -/
abbrev PyStr := List Nat

/-- Code points of a Lean string literal, used for concrete inputs. -/
def toCodes (s : String) : PyStr := s.toList.map (fun c => c.toNat)

/-- Python regex `\s` on a code point (ASCII whitespace, the C1 separators
and the Unicode space separators matched by `re` on `str`). -/
def pyIsSpace (n : Nat) : Bool :=
  decide (n ∈ ([9, 10, 11, 12, 13, 28, 29, 30, 31, 32, 133, 160, 5760,
    8192, 8193, 8194, 8195, 8196, 8197, 8198, 8199, 8200, 8201, 8202,
    8232, 8233, 8239, 8287, 12288] : List Nat))

/-- A lowercase ASCII letter or ASCII digit: the class `[a-z0-9]`. -/
def isAlnumLower (n : Nat) : Bool :=
  decide ((97 ≤ n ∧ n ≤ 122) ∨ (48 ≤ n ∧ n ≤ 57))

/-- `str.lower` on one code point.  Python lowercases the full Unicode
range; the model lowercases ASCII, the only case the engine can observe
(see the header). -/
def pyToLower (n : Nat) : Nat :=
  if 65 ≤ n ∧ n ≤ 90 then n + 32 else n

/-- `str.strip()`: remove leading and trailing whitespace. -/
def pyStrip (l : PyStr) : PyStr :=
  ((l.dropWhile pyIsSpace).reverse.dropWhile pyIsSpace).reverse

/-- Worker for `collapseWs`: the flag records whether the previous
character was whitespace, so only the first character of a whitespace run
emits the single replacement space. -/
def collapseWsAux : Bool → PyStr → PyStr
  | _, [] => []
  | inRun, c :: cs =>
    if pyIsSpace c then
      if inRun then collapseWsAux true cs else 32 :: collapseWsAux true cs
    else c :: collapseWsAux false cs

/-- `re.sub(r"\s+", " ", text)`: replace every maximal whitespace run by
one space. -/
def collapseWs (l : PyStr) : PyStr := collapseWsAux false l

/-- `DuplicateDetectionService._normalize_text`: lowercase, strip,
collapse whitespace runs, then drop every character outside
`[a-z0-9\s]`. -/
def _normalize_text (text : PyStr) : PyStr :=
  let lowered := (text.map pyToLower)
  let stripped := pyStrip lowered
  let collapsed := collapseWs stripped
  collapsed.filter (fun c => isAlnumLower c || pyIsSpace c)

/-- `DuplicateDetectionService.generate_deduplication_hash`: normalize the
title, normalize the description when it is truthy (neither `None` nor
empty), join on `"|"` (code point 124) and digest.  `sha256hex` models the
external `hashlib` digest (see the header). -/
def generate_deduplication_hash (sha256hex : PyStr → PyStr)
    (title : PyStr) (description : Option PyStr) : PyStr :=
  let normalized_title := _normalize_text title
  let normalized_desc :=
    match description with
    | some d => if d.isEmpty then [] else _normalize_text d
    | none => []
  sha256hex (normalized_title ++ 124 :: normalized_desc)

/-- Python `int(x)` on a float: truncation toward zero. -/
def pyTrunc {α : Type} [LinearOrderedField α] [FloorRing α] (x : α) : ℤ :=
  if 0 ≤ x then ⌊x⌋ else -⌊-x⌋

/-- The filtering loop of `find_similar_issues`: keep every corpus index
whose similarity is at least the threshold, already converted to an
integer percentage with `int(score * 100)`.  An entry `(idx, s)` stands
for the Python dict `{"issue": existing_issues[idx], "similarity_score": s}`. -/
def buildResults {α : Type} [LinearOrderedField α] [FloorRing α]
    (similarities : List α) (threshold : α) : List (Nat × ℤ) :=
  (similarities.enum.filter (fun p => decide (threshold ≤ p.2))).map
    (fun p => (p.1, pyTrunc (p.2 * 100)))

/-- Comparison used by `results.sort(key=lambda x: x["similarity_score"],
reverse=True)`: `a` may come before `b` when the key of `b` is at most the
key of `a`.  Python sorts stably, which is exactly `List.insertionSort`
with this relation. -/
def keyGE (a b : Nat × ℤ) : Prop := b.2 ≤ a.2

instance : DecidableRel keyGE := fun a b => inferInstanceAs (Decidable (b.2 ≤ a.2))

instance : IsTotal (Nat × ℤ) keyGE := ⟨fun a b => le_total b.2 a.2⟩

instance : IsTrans (Nat × ℤ) keyGE := ⟨fun _ _ _ h1 h2 => le_trans h2 h1⟩

/-- The stable descending sort of the results list. -/
def sortResults (l : List (Nat × ℤ)) : List (Nat × ℤ) := l.insertionSort keyGE

/-- Filter, convert to integer percentages, sort descending (stable) and
truncate to `limit` — the tail of `find_similar_issues` and of
`_simple_keyword_match`. -/
def rankResults {α : Type} [LinearOrderedField α] [FloorRing α]
    (similarities : List α) (threshold : α) (limit : Nat) : List (Nat × ℤ) :=
  (sortResults (buildResults similarities threshold)).take limit

/-- Python regex `\w` (ASCII fragment): letter, digit or underscore. -/
def isWordChar (n : Nat) : Bool :=
  decide ((97 ≤ n ∧ n ≤ 122) ∨ (65 ≤ n ∧ n ≤ 90) ∨ (48 ≤ n ∧ n ≤ 57) ∨ n = 95)

/-- Worker for `splitWordRuns`: the accumulator holds the current word
run, reversed. -/
def splitWordRunsAux : PyStr → PyStr → List PyStr
  | acc, [] => if acc.isEmpty then [] else [acc.reverse]
  | acc, c :: cs =>
    if isWordChar c then splitWordRunsAux (c :: acc) cs
    else if acc.isEmpty then splitWordRunsAux [] cs
    else acc.reverse :: splitWordRunsAux [] cs

/-- The maximal `\w` runs of a text, i.e. `re.findall(r"\b\w+\b", text)`
(word boundaries are implicit between a word run and a non-word
character). -/
def splitWordRuns (l : PyStr) : List PyStr := splitWordRunsAux [] l

/-- The sklearn analyzer tokens of a text: lowercase, then the word runs
of at least two characters (the default `token_pattern` keeps only
`\w\w+`). -/
def sklearnTokenize (text : PyStr) : List PyStr :=
  (splitWordRuns (text.map pyToLower)).filter (fun t => decide (2 ≤ t.length))

/-- The sklearn features of one document: unigrams with the stop words
removed, followed by the bigrams built from the remaining tokens
(`ngram_range=(1, 2)`, bigrams joined with a space). -/
def featuresOf (stop : List PyStr) (text : PyStr) : List PyStr :=
  let ts := (sklearnTokenize text).filter (fun t => decide (t ∉ stop))
  ts ++ (ts.zip ts.tail).map (fun p => p.1 ++ 32 :: p.2)

/-- The fitted vocabulary: every distinct feature of the document set.
The `max_features=1000` cap is not modelled (see the header). -/
def fitVocabulary (stop : List PyStr) (docs : List PyStr) : List PyStr :=
  ((docs.map (featuresOf stop)).flatten).dedup

/-- The tf-idf row of one document: per vocabulary term, the raw count in
the document weighted by the per-term idf weight `w` (sklearn smooth idf
weights are all positive; `w` abstracts them, see the header).  The l2
row normalisation of sklearn is omitted: the cosine below is scale
invariant, so the similarities are unchanged. -/
def docVector {α : Type} [LinearOrderedField α] (w : PyStr → α)
    (vocab : List PyStr) (feats : List PyStr) : List α :=
  vocab.map (fun t => ((feats.count t : Nat) : α) * w t)

/-- Dot product of two equal-length vectors. -/
def dotL {α : Type} [LinearOrderedField α] (u v : List α) : α :=
  (List.zipWith (fun x y => x * y) u v).sum

/-- Cosine similarity, with the square root supplied as the function
parameter `sq` (instantiated with `Real.sqrt` where its properties
matter).  Division by a zero norm yields 0, as in sklearn. -/
def cosineSim {α : Type} [LinearOrderedField α] (sq : α → α) (u v : List α) : α :=
  dotL u v / (sq (dotL u u) * sq (dotL v v))

/-- `self.vectorizer.fit_transform(corpus)` inside the `try`: fit the
vocabulary on all documents and return the matrix of document vectors;
an empty vocabulary raises `ValueError` (modelled as `Except.error ()`),
which is the failure mode sklearn documents for degenerate input. -/
def tfidfFitTransform {α : Type} [LinearOrderedField α] (w : PyStr → α)
    (stop : List PyStr) (docs : List PyStr) : Except Unit (List (List α)) :=
  let vocab := fitVocabulary stop docs
  if vocab.isEmpty then Except.error ()
  else Except.ok (docs.map (fun d => docVector w vocab (featuresOf stop d)))

/-- An issue as the engine reads it.  The engine only consumes `title`
and `description`; the identifier, key, status, type and creation time
are carried through unchanged by the orchestrator and are omitted here —
a result entry refers to its issue by corpus index instead. -/
structure Issue where
  title : PyStr
  description : Option PyStr

/-- `f"{issue.title} {issue.description or ''}"`: the corpus text of one
issue (`None` and the empty string both contribute nothing after the
separating space). -/
def docText (i : Issue) : PyStr := i.title ++ 32 :: i.description.getD []

/-- `f"{title} {description or ''}"`: the candidate text of the new
issue. -/
def candText (title : PyStr) (description : Option PyStr) : PyStr :=
  title ++ 32 :: description.getD []

/-- The module-level `stop_words` set literal of
`_simple_keyword_match`, transcribed verbatim. -/
def fallbackStopWords : List PyStr :=
  (["the", "a", "an", "is", "are", "was", "were", "be", "been",
    "being", "have", "has", "had", "do", "does", "did", "will",
    "would", "could", "should", "may", "might", "must", "shall",
    "can", "need", "dare", "ought", "used", "to", "of", "in",
    "for", "on", "with", "at", "by", "from", "as", "into",
    "through", "during", "before", "after", "above", "below",
    "between", "under", "again", "further", "then", "once",
    "and", "but", "or", "nor", "so", "yet", "both", "either",
    "neither", "not", "only", "own", "same", "than", "too",
    "very", "just", "also", "now", "here", "there", "when",
    "where", "why", "how", "all", "each", "every", "both",
    "few", "more", "most", "other", "some", "such", "no",
    "any", "this", "that", "these", "those", "it", "its"].map toCodes)

/-- `set(re.findall(r"\b\w+\b", text.lower())) - stop_words` for the
fallback strategy. -/
def fallbackWordSet (text : PyStr) : Finset PyStr :=
  (splitWordRuns (text.map pyToLower)).toFinset \ fallbackStopWords.toFinset

/-- The Jaccard similarity of the fallback strategy:
`intersection / union if union > 0 else 0`, in exact arithmetic. -/
def jaccardSimilarity (newWords issueWords : Finset PyStr) : ℚ :=
  if 0 < (newWords ∪ issueWords).card then
    (((newWords ∩ issueWords).card : Nat) : ℚ) / (((newWords ∪ issueWords).card : Nat) : ℚ)
  else 0

/-- `DuplicateDetectionService._simple_keyword_match`: token-overlap
fallback used when sklearn is unavailable.  Issues whose word set (or the
candidate word set) is empty after stop word removal are skipped; the
inclusion threshold is the hardcoded `0.2`. -/
def _simple_keyword_match (issues : List Issue) (title : PyStr)
    (description : Option PyStr) (limit : Nat) : List (Nat × ℤ) :=
  let newWords := fallbackWordSet (candText title description)
  let results := issues.enum.filterMap (fun p =>
    let issueWords := fallbackWordSet (docText p.2)
    if newWords = ∅ ∨ issueWords = ∅ then none
    else
      let similarity := jaccardSimilarity newWords issueWords
      if 1 / 5 ≤ similarity then some (p.1, pyTrunc (similarity * 100))
      else none)
  (sortResults results).take limit

/-- `DuplicateDetectionService.find_similar_issues`.  The corpus fetched
from the issue repository is the `existingIssues` parameter; the
`SKLEARN_AVAILABLE` module flag is the `sklearnAvailable` parameter.
Empty corpus short-circuits to `[]`; the `ValueError` of a degenerate
vocabulary is caught and also yields `[]`. -/
def find_similar_issues {α : Type} [LinearOrderedField α] [FloorRing α]
    (sq : α → α) (w : PyStr → α) (stop : List PyStr) (sklearnAvailable : Bool)
    (existingIssues : List Issue) (title : PyStr) (description : Option PyStr)
    (threshold : α) (limit : Nat) : List (Nat × ℤ) :=
  if existingIssues.isEmpty then []
  else if sklearnAvailable then
    match tfidfFitTransform w stop (existingIssues.map docText ++ [candText title description]) with
    | Except.error _ => []
    | Except.ok m =>
      rankResults (m.dropLast.map (fun v => cosineSim sq (m.getLastD []) v)) threshold limit
  else _simple_keyword_match existingIssues title description limit

/-- The similarity row the vector-space path hands to the ranker, as a
function of the corpus: used to state theorems about the scores of the
retained candidates. -/
def pipelineSimilarities {α : Type} [LinearOrderedField α] (sq : α → α)
    (w : PyStr → α) (stop : List PyStr) (existingIssues : List Issue)
    (title : PyStr) (description : Option PyStr) : List α :=
  let docs := existingIssues.map docText ++ [candText title description]
  let vocab := fitVocabulary stop docs
  let m := docs.map (fun d => docVector w vocab (featuresOf stop d))
  m.dropLast.map (fun v => cosineSim sq (m.getLastD []) v)

/-- The result record of `IssueService.check_duplicates`.  Entries of
`similar_issues` are `(corpus index, similarity_score)`; the field
projection of the issue into the response dict is carried through
unchanged and not repeated here. -/
structure DuplicateCheckResult where
  similar_issues : List (Nat × ℤ)
  suggested_deduplication_hash : PyStr
  is_likely_duplicate : Bool

/-- `IssueService.check_duplicates`: hash, then similarity search with
the default threshold `0.3` and limit `5`, then the ≥ 70 high-confidence
classification. -/
def check_duplicates {α : Type} [LinearOrderedField α] [FloorRing α]
    (sq : α → α) (w : PyStr → α) (stop : List PyStr)
    (sha256hex : PyStr → PyStr) (sklearnAvailable : Bool)
    (existingIssues : List Issue) (title : PyStr) (description : Option PyStr) :
    DuplicateCheckResult :=
  let dedup_hash := generate_deduplication_hash sha256hex title description
  let similar := find_similar_issues sq w stop sklearnAvailable existingIssues
    title description (3 / 10 : α) 5
  { similar_issues := similar
    suggested_deduplication_hash := dedup_hash
    is_likely_duplicate := similar.any (fun s => decide (70 ≤ s.2)) }

/-- The mutable part of a `DuplicateDetectionService` instance: the
`TfidfVectorizer` constructed in `__init__` and kept on `self`, whose
fitted vocabulary persists between calls. -/
structure ServiceState where
  fitted_vocabulary : Option (List PyStr)

/-- A service as `DuplicateDetectionService(db)` builds it: the
vectorizer has not been fitted yet. -/
def freshService : ServiceState := ⟨none⟩

/-- `fit_transform` on the retained vectorizer instance: per the sklearn
contract, `fit_transform` re-learns the vocabulary from the documents of
this call alone — the previously fitted vocabulary is overwritten, never
read.  Returns the updated instance state together with the matrix (or
the `ValueError`). -/
def fit_transform_stateful {α : Type} [LinearOrderedField α] (w : PyStr → α)
    (stop : List PyStr) (st : ServiceState) (docs : List PyStr) :
    ServiceState × Except Unit (List (List α)) :=
  match tfidfFitTransform w stop docs with
  | Except.error e => (st, Except.error e)
  | Except.ok m => (⟨some (fitVocabulary stop docs)⟩, Except.ok m)

/-- `find_similar_issues` with the vectorizer state of the service
instance made explicit: the result of the call plus the instance state it
leaves behind. -/
def find_similar_issues_stateful {α : Type} [LinearOrderedField α] [FloorRing α]
    (sq : α → α) (w : PyStr → α) (stop : List PyStr) (sklearnAvailable : Bool)
    (st : ServiceState) (existingIssues : List Issue) (title : PyStr)
    (description : Option PyStr) (threshold : α) (limit : Nat) :
    ServiceState × List (Nat × ℤ) :=
  if existingIssues.isEmpty then (st, [])
  else if sklearnAvailable then
    match fit_transform_stateful w stop st
      (existingIssues.map docText ++ [candText title description]) with
    | (st2, Except.error _) => (st2, [])
    | (st2, Except.ok m) =>
      (st2, rankResults (m.dropLast.map (fun v => cosineSim sq (m.getLastD []) v)) threshold limit)
  else (st, _simple_keyword_match existingIssues title description limit)

/-- One earlier request served by the same service instance. -/
structure DetectionRequest (α : Type) where
  issues : List Issue
  title : PyStr
  description : Option PyStr
  threshold : α
  limit : Nat

/-- The service state after a sequence of earlier requests. -/
def runRequests {α : Type} [LinearOrderedField α] [FloorRing α]
    (sq : α → α) (w : PyStr → α) (stop : List PyStr) (sklearnAvailable : Bool)
    (st : ServiceState) (reqs : List (DetectionRequest α)) : ServiceState :=
  reqs.foldl (fun s r =>
    (find_similar_issues_stateful sq w stop sklearnAvailable s r.issues r.title
      r.description r.threshold r.limit).1) st

/-! Helper lemmas -/

lemma normalized_desc_of_some (d : PyStr) :
    (if d.isEmpty then ([] : PyStr) else _normalize_text d) = _normalize_text d := by
  cases d with
  | nil => rfl
  | cons c cs => rfl

lemma collapseWsAux_space_mem :
    ∀ (b : Bool) (l : PyStr) (c : Nat), c ∈ collapseWsAux b l → pyIsSpace c = true → c = 32 := by
  intro b l
  induction l generalizing b with
  | nil => intro c hc; cases hc
  | cons c0 cs ih =>
    intro c hc hsp
    unfold collapseWsAux at hc
    by_cases h0 : pyIsSpace c0 = true
    · rw [if_pos h0] at hc
      cases b with
      | true => exact ih true c hc hsp
      | false =>
        rcases List.mem_cons.mp hc with h | h
        · exact h
        · exact ih true c h hsp
    · rw [if_neg h0] at hc
      rcases List.mem_cons.mp hc with h | h
      · subst h; exact absurd hsp h0
      · exact ih false c h hsp

lemma find_similar_issues_stateless {α : Type} [LinearOrderedField α] [FloorRing α]
    (sq : α → α) (w : PyStr → α) (stop : List PyStr) (sklearnAvailable : Bool)
    (st : ServiceState) (issues : List Issue) (title : PyStr)
    (description : Option PyStr) (threshold : α) (limit : Nat) :
    (find_similar_issues_stateful sq w stop sklearnAvailable st issues title
        description threshold limit).2
      = find_similar_issues sq w stop sklearnAvailable issues title description
          threshold limit := by
  by_cases he : issues.isEmpty
  · simp [find_similar_issues_stateful, find_similar_issues, he]
  · cases sklearnAvailable with
    | false => simp [find_similar_issues_stateful, find_similar_issues, he]
    | true =>
      rcases hfit : tfidfFitTransform w stop
          (issues.map docText ++ [candText title description]) with e | m <;>
        simp [find_similar_issues_stateful, find_similar_issues,
          fit_transform_stateful, he, hfit]

/-- The strict ranking order actually realised by the stable sort on a
duplicate-free index list: strictly larger integer score first, corpus
index order on integer-score ties. -/
def rankLE (a b : Nat × ℤ) : Prop := b.2 < a.2 ∨ (a.2 = b.2 ∧ a.1 ≤ b.1)

instance : DecidableRel rankLE := fun a b =>
  inferInstanceAs (Decidable (b.2 < a.2 ∨ (a.2 = b.2 ∧ a.1 ≤ b.1)))

instance : IsTotal (Nat × ℤ) rankLE := by
  constructor
  intro a b
  simp only [rankLE]
  omega

instance : IsTrans (Nat × ℤ) rankLE := by
  constructor
  intro a b c hab hbc
  simp only [rankLE] at hab hbc ⊢
  omega

lemma orderedInsert_congr (a : Nat × ℤ) :
    ∀ L : List (Nat × ℤ), (∀ b ∈ L, (keyGE a b ↔ rankLE a b)) →
      L.orderedInsert keyGE a = L.orderedInsert rankLE a := by
  intro L
  induction L with
  | nil => intro _; rfl
  | cons b L ih =>
    intro h
    have hb := h b (List.mem_cons_self b L)
    by_cases hab : keyGE a b
    · simp only [List.orderedInsert, if_pos hab, if_pos (hb.mp hab)]
    · have hab2 : ¬ rankLE a b := fun hr => hab (hb.mpr hr)
      simp only [List.orderedInsert, if_neg hab, if_neg hab2]
      rw [ih (fun c hc => h c (List.mem_cons_of_mem b hc))]

lemma insertionSort_keyGE_eq_rankLE :
    ∀ l : List (Nat × ℤ), l.Pairwise (fun a b => a.1 < b.1) →
      l.insertionSort keyGE = l.insertionSort rankLE := by
  intro l
  induction l with
  | nil => intro _; rfl
  | cons a l ih =>
    intro hl
    rcases List.pairwise_cons.mp hl with ⟨ha, hl2⟩
    show (l.insertionSort keyGE).orderedInsert keyGE a
        = (l.insertionSort rankLE).orderedInsert rankLE a
    rw [ih hl2]
    apply orderedInsert_congr
    intro b hb
    have hbl : b ∈ l := (List.mem_insertionSort rankLE).mp hb
    have hab : a.1 < b.1 := ha b hbl
    simp only [keyGE, rankLE]
    omega

lemma enum_pairwise_fst {β : Type} (l : List β) :
    l.enum.Pairwise (fun a b => a.1 < b.1) := by
  rw [List.pairwise_iff_get]
  intro i j hij
  simp only [List.get_eq_getElem, List.enum, List.getElem_enumFrom]
  simpa using hij

lemma buildResults_pairwise_fst {α : Type} [LinearOrderedField α] [FloorRing α]
    (similarities : List α) (threshold : α) :
    (buildResults similarities threshold).Pairwise (fun a b => a.1 < b.1) := by
  unfold buildResults
  rw [List.pairwise_map]
  exact (enum_pairwise_fst similarities).filter _

/-- The ranked list is ordered by the strict relation: strictly larger
integer score first, and corpus order on integer-score ties. -/
lemma rankResults_pairwise {α : Type} [LinearOrderedField α] [FloorRing α]
    (similarities : List α) (threshold : α) (limit : Nat) :
    (rankResults similarities threshold limit).Pairwise
      (fun a b => b.2 < a.2 ∨ (a.2 = b.2 ∧ a.1 < b.1)) := by
  have hb := buildResults_pairwise_fst similarities threshold
  set b := buildResults similarities threshold with hbdef
  have hsorted : List.Sorted rankLE (b.insertionSort rankLE) :=
    List.sorted_insertionSort rankLE b
  have hperm : List.Perm (b.insertionSort rankLE) b := List.perm_insertionSort rankLE b
  have hne : (b.insertionSort rankLE).Pairwise (fun a c => a.1 ≠ c.1) := by
    refine (hperm.pairwise_iff ?_).mpr (hb.imp (fun h => Nat.ne_of_lt h))
    exact fun h => Ne.symm h
  have hcomb := (List.Pairwise.and hsorted hne).imp
    (fun {a c} h => by
      rcases h with ⟨hr, hn⟩
      simp only [rankLE] at hr
      omega :
      ∀ {a c : Nat × ℤ}, (rankLE a c ∧ a.1 ≠ c.1) →
        (c.2 < a.2 ∨ (a.2 = c.2 ∧ a.1 < c.1)))
  unfold rankResults sortResults
  rw [← hbdef, insertionSort_keyGE_eq_rankLE b hb]
  exact hcomb.take

lemma dotL_cons {α : Type} [LinearOrderedField α] (a b : α) (u v : List α) :
    dotL (a :: u) (b :: v) = a * b + dotL u v := by
  simp [dotL]

lemma dotL_self_nonneg {α : Type} [LinearOrderedField α] (u : List α) :
    0 ≤ dotL u u := by
  induction u with
  | nil => simp [dotL]
  | cons a u ih =>
    rw [dotL_cons]
    exact add_nonneg (mul_self_nonneg a) ih

lemma dotL_nonneg {α : Type} [LinearOrderedField α] :
    ∀ u v : List α, (∀ x ∈ u, 0 ≤ x) → (∀ x ∈ v, 0 ≤ x) → 0 ≤ dotL u v := by
  intro u
  induction u with
  | nil => intro v _ _; simp [dotL]
  | cons a u ih =>
    intro v hu hv
    cases v with
    | nil => simp [dotL]
    | cons b v =>
      rw [dotL_cons]
      refine add_nonneg (mul_nonneg (hu a (List.mem_cons_self a u))
        (hv b (List.mem_cons_self b v))) ?_
      exact ih v (fun x hx => hu x (List.mem_cons_of_mem a hx))
        (fun x hx => hv x (List.mem_cons_of_mem b hx))

lemma dotL_self_pos {α : Type} [LinearOrderedField α] :
    ∀ (u : List α) (x : α), x ∈ u → x ≠ 0 → 0 < dotL u u := by
  intro u
  induction u with
  | nil => intro x hx; cases hx
  | cons a u ih =>
    intro x hx hx0
    rw [dotL_cons]
    rcases List.mem_cons.mp hx with rfl | hmem
    · exact add_pos_of_pos_of_nonneg (mul_self_pos.mpr hx0) (dotL_self_nonneg u)
    · exact add_pos_of_nonneg_of_pos (mul_self_nonneg a) (ih x hmem hx0)

lemma dotL_sq_le {α : Type} [LinearOrderedField α] :
    ∀ u v : List α, (dotL u v) ^ 2 ≤ dotL u u * dotL v v := by
  intro u
  induction u with
  | nil => intro v; simp [dotL]
  | cons a u ih =>
    intro v
    cases v with
    | nil => simp [dotL]
    | cons b v =>
      have ihv := ih v
      have hX := dotL_self_nonneg u
      have hY := dotL_self_nonneg v
      rw [dotL_cons, dotL_cons, dotL_cons]
      rcases eq_or_lt_of_le hY with hY0 | hYpos
      · have hd : dotL u v = 0 := by nlinarith [sq_nonneg (dotL u v)]
        rw [hd]
        nlinarith [mul_nonneg hX (mul_self_nonneg b), mul_nonneg hX hY]
      · nlinarith [sq_nonneg (a * dotL v v - b * dotL u v),
          mul_nonneg (add_nonneg (mul_self_nonneg b) hY) (sub_nonneg.2 ihv), hYpos]

lemma cosineSim_self (v : List ℝ) (h : 0 < dotL v v) :
    cosineSim Real.sqrt v v = 1 := by
  unfold cosineSim
  rw [Real.mul_self_sqrt h.le]
  exact div_self (ne_of_gt h)

lemma cosineSim_nonneg (u v : List ℝ) (hu : ∀ x ∈ u, 0 ≤ x) (hv : ∀ x ∈ v, 0 ≤ x) :
    0 ≤ cosineSim Real.sqrt u v := by
  unfold cosineSim
  exact div_nonneg (dotL_nonneg u v hu hv)
    (mul_nonneg (Real.sqrt_nonneg _) (Real.sqrt_nonneg _))

lemma cosineSim_le_one (u v : List ℝ) (hu : ∀ x ∈ u, 0 ≤ x) (hv : ∀ x ∈ v, 0 ≤ x) :
    cosineSim Real.sqrt u v ≤ 1 := by
  unfold cosineSim
  rcases eq_or_lt_of_le (mul_nonneg (Real.sqrt_nonneg (dotL u u))
    (Real.sqrt_nonneg (dotL v v))) with h0 | hpos
  · rw [← h0, div_zero]
    exact zero_le_one
  · rw [div_le_one hpos]
    have hdnn := dotL_nonneg u v hu hv
    calc dotL u v = Real.sqrt ((dotL u v) ^ 2) := (Real.sqrt_sq hdnn).symm
      _ ≤ Real.sqrt (dotL u u * dotL v v) := Real.sqrt_le_sqrt (dotL_sq_le u v)
      _ = Real.sqrt (dotL u u) * Real.sqrt (dotL v v) :=
          Real.sqrt_mul (dotL_self_nonneg u) _

lemma pyTrunc_eq_floor {α : Type} [LinearOrderedField α] [FloorRing α]
    {x : α} (h : 0 ≤ x) : pyTrunc x = ⌊x⌋ := if_pos h

lemma find_similar_issues_vector_cases {α : Type} [LinearOrderedField α] [FloorRing α]
    (sq : α → α) (w : PyStr → α) (stop : List PyStr) (issues : List Issue)
    (title : PyStr) (description : Option PyStr) (threshold : α) (limit : Nat) :
    find_similar_issues sq w stop true issues title description threshold limit = []
    ∨ find_similar_issues sq w stop true issues title description threshold limit
        = rankResults (pipelineSimilarities sq w stop issues title description)
            threshold limit := by
  by_cases he : issues.isEmpty
  · left
    simp [find_similar_issues, he]
  · rcases hfit : tfidfFitTransform w stop
        (issues.map docText ++ [candText title description]) with e | m
    · left
      simp [find_similar_issues, he, hfit]
    · right
      simp only [tfidfFitTransform] at hfit
      by_cases hvoc : (fitVocabulary stop
          (issues.map docText ++ [candText title description])).isEmpty
      · rw [if_pos hvoc] at hfit
        exact absurd hfit (by simp)
      · rw [if_neg hvoc] at hfit
        injection hfit with hm
        subst hm
        simp [find_similar_issues, he, tfidfFitTransform, hvoc, pipelineSimilarities]

lemma buildResults_mem_spec {α : Type} [LinearOrderedField α] [FloorRing α]
    {similarities : List α} {threshold : α} :
    ∀ p ∈ buildResults similarities threshold,
      ∃ h : p.1 < similarities.length,
        threshold ≤ similarities.get ⟨p.1, h⟩
        ∧ p.2 = pyTrunc (similarities.get ⟨p.1, h⟩ * 100) := by
  intro p hp
  unfold buildResults at hp
  rcases List.mem_map.mp hp with ⟨q, hq, hqp⟩
  rcases List.mem_filter.mp hq with ⟨hqmem, hqthr⟩
  have hget : similarities[q.1]? = some q.2 := List.mem_enum_iff_getElem?.mp hqmem
  rcases List.getElem?_eq_some.mp hget with ⟨hlt, hv⟩
  subst hqp
  refine ⟨hlt, ?_, ?_⟩
  · simp only [List.get_eq_getElem, hv]
    exact of_decide_eq_true hqthr
  · simp only [List.get_eq_getElem, hv]

lemma mem_buildResults_of {α : Type} [LinearOrderedField α] [FloorRing α]
    {similarities : List α} {threshold : α} (i : Nat) (h : i < similarities.length)
    (hthr : threshold ≤ similarities.get ⟨i, h⟩) :
    (i, pyTrunc (similarities.get ⟨i, h⟩ * 100)) ∈ buildResults similarities threshold := by
  unfold buildResults
  refine List.mem_map.mpr ⟨(i, similarities.get ⟨i, h⟩), ?_, rfl⟩
  refine List.mem_filter.mpr ⟨?_, by simpa using hthr⟩
  apply List.mem_enum_iff_getElem?.mpr
  simp only [List.get_eq_getElem]
  exact List.getElem?_eq_getElem h

lemma rankResults_subset_buildResults {α : Type} [LinearOrderedField α] [FloorRing α]
    {similarities : List α} {threshold : α} {limit : Nat} :
    ∀ p ∈ rankResults similarities threshold limit, p ∈ buildResults similarities threshold := by
  intro p hp
  unfold rankResults sortResults at hp
  have hp2 := (List.take_sublist _ _).subset hp
  exact (List.mem_insertionSort keyGE).mp hp2

unseal Rat.add Rat.mul in
/-- Counterexample to claim C1: the ranker sorts by the integer
percentage, computed before sorting, not by the raw score.  With raw
scores `[0.701, 0.705]` both convert to 70, the stable sort keeps corpus
order, and the returned list has the raw score of its first entry
strictly below the raw score of its second entry — not descending by raw
score. -/
theorem rankResults_not_sorted_by_raw_counterexample :
    rankResults [Rat.divInt 701 1000, Rat.divInt 705 1000] (Rat.divInt 3 10) 5
      = [(0, 70), (1, 70)]
    ∧ ¬ ([Rat.divInt 701 1000, Rat.divInt 705 1000].getD
          ((rankResults [Rat.divInt 701 1000, Rat.divInt 705 1000] (Rat.divInt 3 10) 5).getD 1 (0, 0)).1 0
        ≤ [Rat.divInt 701 1000, Rat.divInt 705 1000].getD
            ((rankResults [Rat.divInt 701 1000, Rat.divInt 705 1000] (Rat.divInt 3 10) 5).getD 0 (0, 0)).1 0) := by
  exact ⟨by decide, by decide⟩

/-- Claim C1 as amended: the candidate list returned by the ranker is
sorted in descending order of the integer `similarity_score`
(`int(raw_score * 100)`, computed before sorting), entries with equal
integer score appear in the same relative order as their issues appear in
the corpus (their corpus indices increase), and sorting happens before
truncation to the limit. -/
theorem rankResults_sorted_descending_stable {α : Type} [LinearOrderedField α]
    [FloorRing α] (similarities : List α) (threshold : α) (limit : Nat) :
    (rankResults similarities threshold limit).Pairwise
      (fun a b => b.2 < a.2 ∨ (a.2 = b.2 ∧ a.1 < b.1))
    ∧ rankResults similarities threshold limit
        = (sortResults (buildResults similarities threshold)).take limit :=
  ⟨rankResults_pairwise similarities threshold limit, rfl⟩

lemma jaccardSimilarity_nonneg (a b : Finset PyStr) : 0 ≤ jaccardSimilarity a b := by
  unfold jaccardSimilarity
  split
  · exact div_nonneg (Nat.cast_nonneg _) (Nat.cast_nonneg _)
  · exact le_refl 0

lemma simple_keyword_match_mem_spec {issues : List Issue} {title : PyStr}
    {description : Option PyStr} {limit : Nat} :
    ∀ p ∈ _simple_keyword_match issues title description limit,
      ∃ h : p.1 < issues.length,
        p.2 = pyTrunc (jaccardSimilarity (fallbackWordSet (candText title description))
          (fallbackWordSet (docText (issues.get ⟨p.1, h⟩))) * 100) := by
  intro p hp
  unfold _simple_keyword_match at hp
  have hp2 := (List.take_sublist _ _).subset hp
  have hp3 := (List.mem_insertionSort keyGE).mp hp2
  rcases List.mem_filterMap.mp hp3 with ⟨q, hqmem, hfq⟩
  have hget : issues[q.1]? = some q.2 := List.mem_enum_iff_getElem?.mp hqmem
  rcases List.getElem?_eq_some.mp hget with ⟨hlt, hv⟩
  by_cases h1 : fallbackWordSet (candText title description) = ∅
      ∨ fallbackWordSet (docText q.2) = ∅
  · rw [if_pos h1] at hfq
    cases hfq
  · rw [if_neg h1] at hfq
    by_cases h2 : 1 / 5 ≤ jaccardSimilarity (fallbackWordSet (candText title description))
        (fallbackWordSet (docText q.2))
    · rw [if_pos h2] at hfq
      injection hfq with hfq2
      subst hfq2
      refine ⟨hlt, ?_⟩
      simp only [List.get_eq_getElem, hv]
    · rw [if_neg h2] at hfq
      cases hfq

/-- Claim C2: on every path of `check_duplicates`, each retained
candidate integer score is `⌊raw_score * 100⌋` of the raw similarity the
strategy computed for its corpus index (truncation equals floor because
the raw scores are nonnegative — a hypothesis on the vector path, a fact
on the Jaccard path); and `is_likely_duplicate` is true exactly when some
retained candidate has integer score at least 70, so it is false on an
empty retained list. -/
theorem check_duplicates_floor_scores_and_threshold {α : Type}
    [LinearOrderedField α] [FloorRing α] (sq : α → α) (w : PyStr → α)
    (stop : List PyStr) (sha256hex : PyStr → PyStr) (issues : List Issue)
    (title : PyStr) (description : Option PyStr) :
    ((∀ s ∈ pipelineSimilarities sq w stop issues title description, 0 ≤ s) →
      ∀ p ∈ (check_duplicates sq w stop sha256hex true issues title
          description).similar_issues,
        ∃ h : p.1 < (pipelineSimilarities sq w stop issues title description).length,
          p.2 = ⌊(pipelineSimilarities sq w stop issues title description).get
            ⟨p.1, h⟩ * 100⌋)
    ∧ (∀ p ∈ (check_duplicates sq w stop sha256hex false issues title
          description).similar_issues,
        ∃ h : p.1 < issues.length,
          p.2 = ⌊jaccardSimilarity (fallbackWordSet (candText title description))
            (fallbackWordSet (docText (issues.get ⟨p.1, h⟩))) * 100⌋)
    ∧ ∀ sklearnAvailable : Bool,
        ((check_duplicates sq w stop sha256hex sklearnAvailable issues title
            description).is_likely_duplicate = true
          ↔ ∃ p ∈ (check_duplicates sq w stop sha256hex sklearnAvailable issues
              title description).similar_issues, 70 ≤ p.2)
        ∧ ((check_duplicates sq w stop sha256hex sklearnAvailable issues title
            description).similar_issues = [] →
          (check_duplicates sq w stop sha256hex sklearnAvailable issues title
            description).is_likely_duplicate = false) := by
  refine ⟨?_, ?_, ?_⟩
  · intro hnn p hp
    simp only [check_duplicates] at hp
    rcases find_similar_issues_vector_cases sq w stop issues title description
        (3 / 10 : α) 5 with hcase | hcase
    · rw [hcase] at hp
      cases hp
    · rw [hcase] at hp
      have hspec := buildResults_mem_spec p (rankResults_subset_buildResults p hp)
      rcases hspec with ⟨hlt, hthr, heq⟩
      refine ⟨hlt, ?_⟩
      rw [heq]
      exact pyTrunc_eq_floor (mul_nonneg
        (hnn _ (List.get_mem _ _ hlt)) (by norm_num))
  · intro p hp
    simp only [check_duplicates] at hp
    have hp2 : p ∈ _simple_keyword_match issues title description 5 := by
      by_cases he : issues.isEmpty
      · simp [find_similar_issues, he] at hp
      · simpa [find_similar_issues, he] using hp
    rcases simple_keyword_match_mem_spec p hp2 with ⟨hlt, heq⟩
    refine ⟨hlt, ?_⟩
    rw [heq]
    exact pyTrunc_eq_floor (mul_nonneg (jaccardSimilarity_nonneg _ _) (by norm_num))
  · intro sklearnAvailable
    constructor
    · simp [check_duplicates, List.any_eq_true]
    · intro h
      simp only [check_duplicates] at h ⊢
      rw [h]
      rfl

lemma dedup_replicate_succ {β : Type} [DecidableEq β] (n : Nat) (x : β) :
    (List.replicate (n + 1) x).dedup = [x] := by
  induction n with
  | zero => simp
  | succ n ih =>
    rw [List.replicate_succ, List.dedup_cons_of_mem (by simp [List.mem_replicate])]
    exact ih

lemma pipelineSimilarities_identical_corpus (n : Nat) :
    pipelineSimilarities Real.sqrt (fun _ => (1 : ℝ)) []
      (List.replicate n ⟨toCodes ("aa"), none⟩) (toCodes ("aa")) none
      = List.replicate n 1 := by
  have hdocT : docText ⟨toCodes ("aa"), none⟩ = toCodes ("aa ") := by decide
  have hcand : candText (toCodes ("aa")) none = toCodes ("aa ") := by decide
  have hF : featuresOf [] (toCodes ("aa ")) = [toCodes ("aa")] := by decide
  have hvoc : fitVocabulary []
      (List.replicate n (toCodes ("aa ")) ++ [toCodes ("aa ")]) = [toCodes ("aa")] := by
    unfold fitVocabulary
    rw [← List.replicate_succ', List.map_replicate, hF,
      List.flatten_replicate_singleton]
    exact dedup_replicate_succ n _
  have hvec : docVector (fun _ => (1 : ℝ)) [toCodes ("aa")]
      (featuresOf [] (toCodes ("aa "))) = [1] := by
    rw [hF]
    simp [docVector]
  have hcos : cosineSim Real.sqrt [(1 : ℝ)] [(1 : ℝ)] = 1 := by
    have hd : dotL [(1 : ℝ)] [(1 : ℝ)] = 1 := by simp [dotL]
    rw [cosineSim, hd, Real.sqrt_one]
    norm_num
  simp only [pipelineSimilarities, List.map_replicate, hdocT, hcand, hvoc,
    List.map_append, List.map_cons, List.map_nil, hvec,
    List.dropLast_concat, List.getLastD_concat, hcos]

lemma find_similar_issues_vector_of_fit {α : Type} [LinearOrderedField α] [FloorRing α]
    (sq : α → α) (w : PyStr → α) (stop : List PyStr) (issues : List Issue)
    (title : PyStr) (description : Option PyStr) (threshold : α) (limit : Nat)
    (hne : issues.isEmpty = false)
    (hvoc : (fitVocabulary stop
      (issues.map docText ++ [candText title description])).isEmpty = false) :
    find_similar_issues sq w stop true issues title description threshold limit
      = rankResults (pipelineSimilarities sq w stop issues title description)
          threshold limit := by
  simp [find_similar_issues, hne, tfidfFitTransform, hvoc, pipelineSimilarities]

lemma pipelineSimilarities_length {α : Type} [LinearOrderedField α]
    (sq : α → α) (w : PyStr → α) (stop : List PyStr) (issues : List Issue)
    (title : PyStr) (description : Option PyStr) :
    (pipelineSimilarities sq w stop issues title description).length
      = issues.length := by
  simp [pipelineSimilarities]

lemma pipelineSimilarities_of_empty_vocab {α : Type} [LinearOrderedField α]
    (sq : α → α) (w : PyStr → α) (stop : List PyStr) (issues : List Issue)
    (title : PyStr) (description : Option PyStr)
    (hvoc : fitVocabulary stop
      (issues.map docText ++ [candText title description]) = []) :
    ∀ s ∈ pipelineSimilarities sq w stop issues title description, s = 0 := by
  intro s hs
  simp only [pipelineSimilarities, hvoc] at hs
  rcases List.mem_map.mp hs with ⟨v, hv, hvs⟩
  have hv2 := List.dropLast_subset _ hv
  rcases List.mem_map.mp hv2 with ⟨d, _, hdv⟩
  have hvnil : v = [] := by
    rw [← hdv]
    simp [docVector]
  subst hvnil
  rw [← hvs]
  simp [cosineSim, dotL]

lemma mem_of_mem_enum {β : Type} {l : List β} {p : Nat × β} (hp : p ∈ l.enum) :
    p.2 ∈ l := by
  have hget := List.mem_enum_iff_getElem?.mp hp
  rcases List.getElem?_eq_some.mp hget with ⟨hlt, hv⟩
  rw [← hv]
  exact List.getElem_mem hlt

lemma buildResults_length_all_above {α : Type} [LinearOrderedField α] [FloorRing α]
    {similarities : List α} {threshold : α}
    (h : ∀ s ∈ similarities, threshold ≤ s) :
    (buildResults similarities threshold).length = similarities.length := by
  unfold buildResults
  rw [List.length_map, List.filter_eq_self.mpr, List.enum_length]
  intro p hp
  exact decide_eq_true (h p.2 (mem_of_mem_enum hp))

/-- Claim C9: on both strategy paths the returned candidate list has
length at most the limit (default 5); and on the vector path, a corpus of
10 issues whose similarities are all at or above the default inclusion
threshold 0.3 yields exactly 5 results with the default limit. -/
theorem find_similar_issues_limit {α : Type} [LinearOrderedField α] [FloorRing α]
    (sq : α → α) (w : PyStr → α) (stop : List PyStr) :
    (∀ (sklearnAvailable : Bool) (issues : List Issue) (title : PyStr)
        (description : Option PyStr) (threshold : α) (limit : Nat),
      (find_similar_issues sq w stop sklearnAvailable issues title description
        threshold limit).length ≤ limit)
    ∧ ∀ (issues : List Issue) (title : PyStr) (description : Option PyStr),
        issues.length = 10 →
        (∀ s ∈ pipelineSimilarities sq w stop issues title description,
          (3 / 10 : α) ≤ s) →
        (find_similar_issues sq w stop true issues title description
          (3 / 10 : α) 5).length = 5 := by
  constructor
  · intro sklearnAvailable issues title description threshold limit
    by_cases he : issues.isEmpty
    · simp [find_similar_issues, he]
    · cases sklearnAvailable with
      | false =>
        simp only [find_similar_issues, he, Bool.false_eq_true, if_false, if_true]
        unfold _simple_keyword_match
        exact List.length_take_le _ _
      | true =>
        rcases hfit : tfidfFitTransform w stop
            (issues.map docText ++ [candText title description]) with e | m
        · simp [find_similar_issues, he, hfit]
        · simp only [find_similar_issues, he, hfit, Bool.false_eq_true, if_false,
            if_true]
          unfold rankResults
          exact List.length_take_le _ _
  · intro issues title description hlen hall
    have hne : issues.isEmpty = false := by
      cases issues with
      | nil => simp at hlen
      | cons a l => rfl
    by_cases hvoc : (fitVocabulary stop
        (issues.map docText ++ [candText title description])).isEmpty
    · exfalso
      have hlen2 : (pipelineSimilarities sq w stop issues title description).length
          = 10 := by
        rw [pipelineSimilarities_length, hlen]
      have hmem : (pipelineSimilarities sq w stop issues title description).get
          ⟨0, by omega⟩ ∈ pipelineSimilarities sq w stop issues title description :=
        List.get_mem _ _ _
      have h0 := pipelineSimilarities_of_empty_vocab sq w stop issues title
        description (List.isEmpty_iff.mp hvoc) _ hmem
      have h3 := hall _ hmem
      rw [h0] at h3
      have : ¬ ((3 / 10 : α) ≤ 0) := by norm_num
      exact this h3
    · rw [find_similar_issues_vector_of_fit sq w stop issues title description
        (3 / 10 : α) 5 hne (Bool.not_eq_true _ ▸ hvoc)]
      unfold rankResults sortResults
      rw [List.length_take, List.length_insertionSort,
        buildResults_length_all_above hall, pipelineSimilarities_length, hlen]
      rfl

/-- Witness for C9: ten issues identical to the candidate all score 1 and
exactly 5 are returned. -/
theorem find_similar_issues_limit_witness :
    (List.replicate 10 (⟨toCodes ("aa"), none⟩ : Issue)).length = 10
    ∧ (∀ s ∈ pipelineSimilarities Real.sqrt (fun _ => (1 : ℝ)) []
        (List.replicate 10 ⟨toCodes ("aa"), none⟩) (toCodes ("aa")) none,
        (3 / 10 : ℝ) ≤ s)
    ∧ (find_similar_issues Real.sqrt (fun _ => (1 : ℝ)) [] true
        (List.replicate 10 ⟨toCodes ("aa"), none⟩) (toCodes ("aa")) none
        (3 / 10 : ℝ) 5).length = 5 := by
  have hall : ∀ s ∈ pipelineSimilarities Real.sqrt (fun _ => (1 : ℝ)) []
      (List.replicate 10 ⟨toCodes ("aa"), none⟩) (toCodes ("aa")) none,
      (3 / 10 : ℝ) ≤ s := by
    rw [pipelineSimilarities_identical_corpus 10]
    intro s hs
    rw [List.eq_of_mem_replicate hs]
    norm_num
  exact ⟨by simp, hall,
    (find_similar_issues_limit Real.sqrt (fun _ => (1 : ℝ)) []).2 _ _ _
      (by simp) hall⟩

lemma docVector_nonneg {α : Type} [LinearOrderedField α] {w : PyStr → α}
    (hw : ∀ t, 0 ≤ w t) (vocab feats : List PyStr) :
    ∀ x ∈ docVector w vocab feats, 0 ≤ x := by
  intro x hx
  rcases List.mem_map.mp hx with ⟨t, _, rfl⟩
  exact mul_nonneg (Nat.cast_nonneg _) (hw t)

lemma pipelineSimilarities_eq_map {α : Type} [LinearOrderedField α]
    (sq : α → α) (w : PyStr → α) (stop : List PyStr) (issues : List Issue)
    (title : PyStr) (description : Option PyStr) :
    pipelineSimilarities sq w stop issues title description
      = issues.map (fun iss => cosineSim sq
          (docVector w (fitVocabulary stop
              (issues.map docText ++ [candText title description]))
            (featuresOf stop (candText title description)))
          (docVector w (fitVocabulary stop
              (issues.map docText ++ [candText title description]))
            (featuresOf stop (docText iss)))) := by
  simp only [pipelineSimilarities, List.map_append, List.map_cons, List.map_nil,
    List.dropLast_concat, List.getLastD_concat, List.map_map]
  rfl

/-- Claim C5 as amended: if some corpus issue has exactly the candidate
text (and the candidate has at least one feature after stop word
removal), then `check_duplicates` returns some candidate with
`similarity_score` exactly 100 — the identical issue itself whenever at
most `limit` candidates tie at 100 before it — and `is_likely_duplicate`
is true.  (The identical issue itself can be truncated away when more
than `limit` corpus issues score 100, see the counterexample.) -/
theorem check_duplicates_exact_match (w : PyStr → ℝ) (stop : List PyStr)
    (sha256hex : PyStr → PyStr) (issues : List Issue) (title : PyStr)
    (description : Option PyStr) (i : Nat)
    (hw : ∀ t, 0 < w t)
    (hi : i < issues.length)
    (heq : docText (issues.get ⟨i, hi⟩) = candText title description)
    (hfeat : featuresOf stop (candText title description) ≠ []) :
    (∃ p ∈ (check_duplicates Real.sqrt w stop sha256hex true issues title
        description).similar_issues, p.2 = 100)
    ∧ (check_duplicates Real.sqrt w stop sha256hex true issues title
        description).is_likely_duplicate = true := by
  have hne : issues.isEmpty = false := by
    cases issues with
    | nil => cases hi
    | cons a l => rfl
  rcases List.exists_mem_of_ne_nil _ hfeat with ⟨f, hf⟩
  have hcand_mem : candText title description
      ∈ issues.map docText ++ [candText title description] :=
    List.mem_append_right _ (List.mem_singleton_self _)
  have hfv : f ∈ fitVocabulary stop
      (issues.map docText ++ [candText title description]) := by
    unfold fitVocabulary
    rw [List.mem_dedup]
    exact List.mem_flatten.mpr ⟨_, List.mem_map_of_mem _ hcand_mem, hf⟩
  have hvocne : (fitVocabulary stop
      (issues.map docText ++ [candText title description])).isEmpty = false := by
    rcases hl : fitVocabulary stop
        (issues.map docText ++ [candText title description]) with _ | _
    · rw [hl] at hfv
      cases hfv
    · rfl
  have hcvec_pos : 0 < dotL
      (docVector w (fitVocabulary stop
          (issues.map docText ++ [candText title description]))
        (featuresOf stop (candText title description)))
      (docVector w (fitVocabulary stop
          (issues.map docText ++ [candText title description]))
        (featuresOf stop (candText title description))) := by
    apply dotL_self_pos _
      (((featuresOf stop (candText title description)).count f : ℝ) * w f)
    · exact List.mem_map_of_mem _ hfv
    · have hcnt : 0 < (featuresOf stop (candText title description)).count f :=
        List.count_pos_iff.mpr hf
      have : (0 : ℝ) < ((featuresOf stop
          (candText title description)).count f : ℝ) * w f :=
        mul_pos (by exact_mod_cast hcnt) (hw f)
      exact ne_of_gt this
  have hlen : i < (pipelineSimilarities Real.sqrt w stop issues title
      description).length := by
    rw [pipelineSimilarities_length]
    exact hi
  have hsim_opt : (pipelineSimilarities Real.sqrt w stop issues title
      description)[i]? = some 1 := by
    rw [pipelineSimilarities_eq_map, List.getElem?_map,
      List.getElem?_eq_getElem hi]
    have hg : issues[i] = issues.get ⟨i, hi⟩ := rfl
    simp only [Option.map_some', hg, heq]
    rw [cosineSim_self _ hcvec_pos]
  have hsim_i : (pipelineSimilarities Real.sqrt w stop issues title
      description).get ⟨i, hlen⟩ = 1 := by
    have := List.getElem?_eq_getElem hlen
    rw [hsim_opt] at this
    exact (Option.some.inj this).symm
  have hbound : ∀ p ∈ buildResults (pipelineSimilarities Real.sqrt w stop issues
      title description) (3 / 10 : ℝ), p.2 ≤ 100 := by
    intro p hp
    rcases buildResults_mem_spec p hp with ⟨hlt, _, heq2⟩
    set s := (pipelineSimilarities Real.sqrt w stop issues title
      description).get ⟨p.1, hlt⟩ with hs
    have hs_mem : s ∈ pipelineSimilarities Real.sqrt w stop issues title
        description := List.get_mem _ _ _
    have hs_form : ∃ iss, s = cosineSim Real.sqrt
        (docVector w (fitVocabulary stop
            (issues.map docText ++ [candText title description]))
          (featuresOf stop (candText title description)))
        (docVector w (fitVocabulary stop
            (issues.map docText ++ [candText title description]))
          (featuresOf stop (docText iss))) := by
      rw [pipelineSimilarities_eq_map] at hs_mem
      rcases List.mem_map.mp hs_mem with ⟨iss, _, hform⟩
      exact ⟨iss, hform.symm⟩
    rcases hs_form with ⟨iss, hform⟩
    have hs_le : s ≤ 1 := by
      rw [hform]
      exact cosineSim_le_one _ _
        (docVector_nonneg (fun t => (hw t).le) _ _)
        (docVector_nonneg (fun t => (hw t).le) _ _)
    have hs_nn : 0 ≤ s := by
      rw [hform]
      exact cosineSim_nonneg _ _
        (docVector_nonneg (fun t => (hw t).le) _ _)
        (docVector_nonneg (fun t => (hw t).le) _ _)
    rw [heq2, pyTrunc_eq_floor (mul_nonneg hs_nn (by norm_num))]
    calc ⌊s * 100⌋ ≤ ⌊(100 : ℝ)⌋ :=
          Int.floor_le_floor (by nlinarith)
      _ = 100 := by norm_num
  have h100 : pyTrunc ((pipelineSimilarities Real.sqrt w stop issues title
      description).get ⟨i, hlen⟩ * 100) = 100 := by
    rw [hsim_i, one_mul, pyTrunc_eq_floor (by norm_num : (0:ℝ) ≤ 100)]
    norm_num
  have hmem_b : ((i : Nat), (100 : ℤ)) ∈ buildResults
      (pipelineSimilarities Real.sqrt w stop issues title description)
      (3 / 10 : ℝ) := by
    have hthr : (3 / 10 : ℝ) ≤ (pipelineSimilarities Real.sqrt w stop issues
        title description).get ⟨i, hlen⟩ := by
      rw [hsim_i]
      norm_num
    have := mem_buildResults_of i hlen hthr
    rw [h100] at this
    exact this
  have hmem_L : ((i : Nat), (100 : ℤ)) ∈ sortResults (buildResults
      (pipelineSimilarities Real.sqrt w stop issues title description)
      (3 / 10 : ℝ)) := (List.mem_insertionSort keyGE).mpr hmem_b
  have hsorted : List.Sorted keyGE (sortResults (buildResults
      (pipelineSimilarities Real.sqrt w stop issues title description)
      (3 / 10 : ℝ))) := List.sorted_insertionSort keyGE _
  rcases hL : sortResults (buildResults
      (pipelineSimilarities Real.sqrt w stop issues title description)
      (3 / 10 : ℝ)) with _ | ⟨hd, tl⟩
  · rw [hL] at hmem_L
    cases hmem_L
  · have hhd_b : hd ∈ buildResults (pipelineSimilarities Real.sqrt w stop issues
        title description) (3 / 10 : ℝ) := by
      have hmem2 : hd ∈ sortResults (buildResults (pipelineSimilarities Real.sqrt
          w stop issues title description) (3 / 10 : ℝ)) := by
        rw [hL]
        exact List.mem_cons_self hd tl
      exact (List.mem_insertionSort keyGE).mp hmem2
    have hhd_le : hd.2 ≤ 100 := hbound hd hhd_b
    have hhd_ge : (100 : ℤ) ≤ hd.2 := by
      rw [hL] at hmem_L hsorted
      rcases List.mem_cons.mp hmem_L with hEq | hmem_tl
      · rw [← hEq]
      · exact (List.sorted_cons.mp hsorted).1 _ hmem_tl
    have hhd100 : hd.2 = 100 := le_antisymm hhd_le hhd_ge
    have hfind := find_similar_issues_vector_of_fit Real.sqrt w stop issues title
      description (3 / 10 : ℝ) 5 hne hvocne
    have hres : (check_duplicates Real.sqrt w stop sha256hex true issues title
        description).similar_issues
        = hd :: List.take 4 tl := by
      show find_similar_issues Real.sqrt w stop true issues title description
        (3 / 10 : ℝ) 5 = hd :: List.take 4 tl
      rw [hfind]
      show (sortResults (buildResults (pipelineSimilarities Real.sqrt w stop
        issues title description) (3 / 10 : ℝ))).take 5 = hd :: List.take 4 tl
      rw [hL]
      rfl
    constructor
    · exact ⟨hd, by rw [hres]; exact List.mem_cons_self hd _, hhd100⟩
    · have : (check_duplicates Real.sqrt w stop sha256hex true issues title
          description).is_likely_duplicate
          = (check_duplicates Real.sqrt w stop sha256hex true issues title
            description).similar_issues.any (fun s => decide (70 ≤ s.2)) := rfl
      rw [this, hres]
      apply List.any_eq_true.mpr
      exact ⟨hd, List.mem_cons_self hd _, decide_eq_true (by rw [hhd100]; norm_num)⟩

lemma rankResults_replicate1 :
    rankResults (List.replicate 1 (1 : ℝ)) (3 / 10) 5 = [(0, 100)] := by
  have hb : buildResults (List.replicate 1 (1 : ℝ)) (3 / 10) = [(0, 100)] := by
    norm_num [buildResults, List.replicate, List.enum, List.enumFrom,
      List.filter, pyTrunc]
  unfold rankResults
  rw [hb]
  decide

lemma rankResults_replicate6 :
    rankResults (List.replicate 6 (1 : ℝ)) (3 / 10) 5
      = [(0, 100), (1, 100), (2, 100), (3, 100), (4, 100)] := by
  have hb : buildResults (List.replicate 6 (1 : ℝ)) (3 / 10)
      = [(0, 100), (1, 100), (2, 100), (3, 100), (4, 100), (5, 100)] := by
    norm_num [buildResults, List.replicate, List.enum, List.enumFrom,
      List.filter, pyTrunc]
  unfold rankResults
  rw [hb]
  decide

lemma check_duplicates_aa_single_result :
    (check_duplicates Real.sqrt (fun _ => (1 : ℝ)) [] (fun l => l) true
      (List.replicate 1 ⟨toCodes ("aa"), none⟩) (toCodes ("aa")) none).similar_issues
      = [(0, 100)] := by
  show find_similar_issues Real.sqrt (fun _ => (1 : ℝ)) [] true
      (List.replicate 1 ⟨toCodes ("aa"), none⟩) (toCodes ("aa")) none (3 / 10 : ℝ) 5
      = [(0, 100)]
  rw [find_similar_issues_vector_of_fit Real.sqrt (fun _ => (1 : ℝ)) []
      (List.replicate 1 ⟨toCodes ("aa"), none⟩) (toCodes ("aa")) none (3 / 10 : ℝ) 5
      (by decide) (by decide),
    pipelineSimilarities_identical_corpus 1, rankResults_replicate1]

lemma check_duplicates_aa_six_result :
    (check_duplicates Real.sqrt (fun _ => (1 : ℝ)) [] (fun l => l) true
      (List.replicate 6 ⟨toCodes ("aa"), none⟩) (toCodes ("aa")) none).similar_issues
      = [(0, 100), (1, 100), (2, 100), (3, 100), (4, 100)] := by
  show find_similar_issues Real.sqrt (fun _ => (1 : ℝ)) [] true
      (List.replicate 6 ⟨toCodes ("aa"), none⟩) (toCodes ("aa")) none (3 / 10 : ℝ) 5
      = [(0, 100), (1, 100), (2, 100), (3, 100), (4, 100)]
  rw [find_similar_issues_vector_of_fit Real.sqrt (fun _ => (1 : ℝ)) []
      (List.replicate 6 ⟨toCodes ("aa"), none⟩) (toCodes ("aa")) none (3 / 10 : ℝ) 5
      (by decide) (by decide),
    pipelineSimilarities_identical_corpus 6, rankResults_replicate6]

/-- Counterexample to claim C5: with six corpus issues identical to the
candidate every similarity is exactly 1 (integer score 100), the stable
sort keeps corpus order, and the default limit of 5 drops the issue at
corpus index 5 — so the claim "the result contains that issue" fails for
it even though its text matches the candidate exactly. -/
theorem check_duplicates_exact_match_counterexample :
    docText ((List.replicate 6 (⟨toCodes ("aa"), none⟩ : Issue)).get ⟨5, by decide⟩)
      = candText (toCodes ("aa")) none
    ∧ featuresOf [] (candText (toCodes ("aa")) none) ≠ []
    ∧ ∀ p ∈ (check_duplicates Real.sqrt (fun _ => (1 : ℝ)) [] (fun l => l) true
        (List.replicate 6 ⟨toCodes ("aa"), none⟩) (toCodes ("aa")) none).similar_issues,
        p.1 ≠ 5 := by
  refine ⟨by decide, by decide, ?_⟩
  intro p hp
  rw [check_duplicates_aa_six_result] at hp
  simp only [List.mem_cons, List.not_mem_nil, or_false] at hp
  rcases hp with rfl | rfl | rfl | rfl | rfl <;> decide

/-- Witness for C5 as amended: a single identical issue is returned with
score 100 and the check classifies it as a likely duplicate. -/
theorem check_duplicates_exact_match_witness :
    (∃ p ∈ (check_duplicates Real.sqrt (fun _ => (1 : ℝ)) [] (fun l => l) true
        (List.replicate 1 ⟨toCodes ("aa"), none⟩) (toCodes ("aa")) none).similar_issues,
      p.2 = 100)
    ∧ (check_duplicates Real.sqrt (fun _ => (1 : ℝ)) [] (fun l => l) true
        (List.replicate 1 ⟨toCodes ("aa"), none⟩) (toCodes ("aa"))
        none).is_likely_duplicate = true :=
  check_duplicates_exact_match (fun _ => (1 : ℝ)) [] (fun l => l)
    (List.replicate 1 ⟨toCodes ("aa"), none⟩) (toCodes ("aa")) none 0
    (fun _ => by norm_num) (by decide) (by decide) (by decide)

/-- Witness for C2 at a one-issue corpus identical to the candidate: the
similarity row is nonnegative, the single retained candidate is
`(0, 100)` and its score is `⌊1 * 100⌋`. -/
theorem check_duplicates_floor_scores_and_threshold_witness :
    (∀ s ∈ pipelineSimilarities Real.sqrt (fun _ => (1 : ℝ)) []
        (List.replicate 1 ⟨toCodes ("aa"), none⟩) (toCodes ("aa")) none, (0 : ℝ) ≤ s)
    ∧ (0, 100) ∈ (check_duplicates Real.sqrt (fun _ => (1 : ℝ)) [] (fun l => l) true
        (List.replicate 1 ⟨toCodes ("aa"), none⟩) (toCodes ("aa")) none).similar_issues
    ∧ ∃ h : (0 : Nat) < (pipelineSimilarities Real.sqrt (fun _ => (1 : ℝ)) []
        (List.replicate 1 ⟨toCodes ("aa"), none⟩) (toCodes ("aa")) none).length,
        (100 : ℤ) = ⌊(pipelineSimilarities Real.sqrt (fun _ => (1 : ℝ)) []
          (List.replicate 1 ⟨toCodes ("aa"), none⟩) (toCodes ("aa")) none).get
            ⟨0, h⟩ * 100⌋ := by
  have hnn : ∀ s ∈ pipelineSimilarities Real.sqrt (fun _ => (1 : ℝ)) []
      (List.replicate 1 ⟨toCodes ("aa"), none⟩) (toCodes ("aa")) none,
      (0 : ℝ) ≤ s := by
    rw [pipelineSimilarities_identical_corpus 1]
    intro s hs
    rw [List.eq_of_mem_replicate hs]
    norm_num
  have hmem : ((0 : Nat), (100 : ℤ)) ∈ (check_duplicates Real.sqrt
      (fun _ => (1 : ℝ)) [] (fun l => l) true
      (List.replicate 1 ⟨toCodes ("aa"), none⟩) (toCodes ("aa"))
      none).similar_issues := by
    rw [check_duplicates_aa_single_result]
    exact List.mem_singleton_self _
  exact ⟨hnn, hmem, (check_duplicates_floor_scores_and_threshold Real.sqrt
    (fun _ => (1 : ℝ)) [] (fun l => l) (List.replicate 1 ⟨toCodes ("aa"), none⟩)
    (toCodes ("aa")) none).1 hnn (0, 100) hmem⟩

/-! Claim theorems on hashing and normalization -/

/-- Claim C3: the deduplication hash is a function of the normalized title
and normalized description alone — inputs with equal normalizations hash
equally, for every digest function; in particular the two concrete pairs
of the spec hash equally. -/
theorem generate_deduplication_hash_normalization_invariant :
    (∀ (sha256hex : PyStr → PyStr) (t1 t2 d1 d2 : PyStr),
      _normalize_text t1 = _normalize_text t2 →
      _normalize_text d1 = _normalize_text d2 →
      generate_deduplication_hash sha256hex t1 (some d1)
        = generate_deduplication_hash sha256hex t2 (some d2))
    ∧ ∀ sha256hex : PyStr → PyStr,
      generate_deduplication_hash sha256hex (toCodes ("Login fails"))
          (some (toCodes ("Crash")))
        = generate_deduplication_hash sha256hex (toCodes (" LOGIN   Fails "))
            (some (toCodes ("  crash "))) := by
  have H : ∀ (sha256hex : PyStr → PyStr) (t1 t2 d1 d2 : PyStr),
      _normalize_text t1 = _normalize_text t2 →
      _normalize_text d1 = _normalize_text d2 →
      generate_deduplication_hash sha256hex t1 (some d1)
        = generate_deduplication_hash sha256hex t2 (some d2) := by
    intro f t1 t2 d1 d2 ht hd
    unfold generate_deduplication_hash
    simp only [normalized_desc_of_some]
    rw [ht, hd]
  exact ⟨H, fun f => H f _ _ _ _ (by decide) (by decide)⟩

/-- Witness for C3 at the concrete pairs of the spec, with the digest
instantiated as the identity. -/
theorem generate_deduplication_hash_normalization_invariant_witness :
    _normalize_text (toCodes ("Login fails")) = _normalize_text (toCodes (" LOGIN   Fails "))
    ∧ generate_deduplication_hash (fun l => l) (toCodes ("Login fails"))
        (some (toCodes ("Crash")))
      = generate_deduplication_hash (fun l => l) (toCodes (" LOGIN   Fails "))
          (some (toCodes ("  crash "))) :=
  ⟨by decide, generate_deduplication_hash_normalization_invariant.1 (fun l => l)
    _ _ _ _ (by decide) (by decide)⟩

/-- Claim C10: a missing description, an empty description and any
description normalizing to the empty string produce the same hash. -/
theorem generate_deduplication_hash_missing_description
    (sha256hex : PyStr → PyStr) (title : PyStr) :
    generate_deduplication_hash sha256hex title (some [])
      = generate_deduplication_hash sha256hex title none
    ∧ ∀ d : PyStr, _normalize_text d = [] →
      generate_deduplication_hash sha256hex title (some d)
        = generate_deduplication_hash sha256hex title none := by
  constructor
  · rfl
  · intro d hd
    unfold generate_deduplication_hash
    simp only [normalized_desc_of_some]
    rw [hd]

/-- Witness for C10: whitespace-only and punctuation-only descriptions
hash like a missing one. -/
theorem generate_deduplication_hash_missing_description_witness :
    _normalize_text (toCodes (" !? ")) = []
    ∧ generate_deduplication_hash (fun l => l) (toCodes ("Login fails"))
        (some (toCodes (" !? ")))
      = generate_deduplication_hash (fun l => l) (toCodes ("Login fails")) none :=
  ⟨by decide, (generate_deduplication_hash_missing_description (fun l => l)
    (toCodes ("Login fails"))).2 _ (by decide)⟩

/-- Counterexample to claim C4: normalizing `"a . b"` yields `"a  b"`,
which contains a run of two consecutive whitespace characters — removing
a non-alphanumeric character happens after whitespace collapsing and can
reintroduce adjacent spaces. -/
theorem _normalize_text_consecutive_space_counterexample :
    _normalize_text (toCodes ("a . b")) = toCodes ("a  b")
    ∧ ¬ (∀ i : Nat,
      ¬(pyIsSpace ((_normalize_text (toCodes ("a . b"))).getD i 0) = true
        ∧ pyIsSpace ((_normalize_text (toCodes ("a . b"))).getD (i + 1) 0) = true)) :=
  ⟨by decide, fun h => h 1 (by decide)⟩

/-- Claim C4 as amended: every character of the normalizer output is a
lowercase ASCII alphanumeric or the space character (in particular the
output is lowercased and its only whitespace is the plain space);
runs of consecutive spaces and leading or trailing spaces can remain
when punctuation adjacent to whitespace is removed. -/
theorem _normalize_text_charset (l : PyStr) :
    ∀ c ∈ _normalize_text l, isAlnumLower c = true ∨ c = 32 := by
  intro c hc
  unfold _normalize_text at hc
  rcases List.mem_filter.mp hc with ⟨hmem, hkeep⟩
  rcases Bool.or_eq_true_iff.mp hkeep with h | h
  · exact Or.inl h
  · exact Or.inr (collapseWsAux_space_mem false _ c hmem h)

/-- Witness for C4 as amended, at a concrete input and character. -/
theorem _normalize_text_charset_witness :
    97 ∈ _normalize_text (toCodes ("Ab c!")) ∧ (isAlnumLower 97 = true ∨ 97 = 32) :=
  ⟨by decide, _normalize_text_charset (toCodes ("Ab c!")) 97 (by decide)⟩

/-! Claim theorems on orchestrator edge cases -/

/-- Claim C7: with an empty corpus, `check_duplicates` returns an empty
`similar_issues` list, `is_likely_duplicate = false`, and still computes
and returns the suggested deduplication hash (the embedding is total, so
no exception is raised on this path). -/
theorem check_duplicates_empty_corpus {α : Type} [LinearOrderedField α] [FloorRing α]
    (sq : α → α) (w : PyStr → α) (stop : List PyStr) (sha256hex : PyStr → PyStr)
    (sklearnAvailable : Bool) (title : PyStr) (description : Option PyStr) :
    (check_duplicates sq w stop sha256hex sklearnAvailable [] title description).similar_issues = []
    ∧ (check_duplicates sq w stop sha256hex sklearnAvailable [] title description).is_likely_duplicate = false
    ∧ (check_duplicates sq w stop sha256hex sklearnAvailable [] title description).suggested_deduplication_hash
        = generate_deduplication_hash sha256hex title description :=
  ⟨rfl, rfl, rfl⟩

/-- Claim C8: when the vectorization step fails (the `ValueError` sklearn
raises for a degenerate, e.g. all-stop-word, vocabulary), the vector-space
path of `find_similar_issues` returns the empty list instead of
propagating the error. -/
theorem find_similar_issues_vectorizer_error {α : Type} [LinearOrderedField α]
    [FloorRing α] (sq : α → α) (w : PyStr → α) (stop : List PyStr)
    (existingIssues : List Issue) (title : PyStr) (description : Option PyStr)
    (threshold : α) (limit : Nat)
    (herr : tfidfFitTransform w stop
        (existingIssues.map docText ++ [candText title description])
      = (Except.error () : Except Unit (List (List α)))) :
    find_similar_issues sq w stop true existingIssues title description
      threshold limit = [] := by
  by_cases he : existingIssues.isEmpty
  · simp [find_similar_issues, he]
  · simp [find_similar_issues, he, herr]

/-- Witness for C8: a one-issue corpus that is entirely stop words makes
the vectorization fail, and the call returns `[]`. -/
theorem find_similar_issues_vectorizer_error_witness :
    tfidfFitTransform (fun _ => (1 : ℚ)) [toCodes ("the")]
        (([⟨toCodes ("the"), none⟩] : List Issue).map docText
          ++ [candText (toCodes ("the")) none])
      = (Except.error () : Except Unit (List (List ℚ)))
    ∧ find_similar_issues (fun x : ℚ => x) (fun _ => (1 : ℚ)) [toCodes ("the")] true
        [⟨toCodes ("the"), none⟩] (toCodes ("the")) none (3 / 10) 5 = [] := by
  refine ⟨by rfl, ?_⟩
  exact find_similar_issues_vectorizer_error _ _ _ _ _ _ _ _ (by rfl)

/-- Claim C6: the similarity result of a call depends only on that call
corpus and candidate — after any sequence of prior requests on the same
service instance, the call returns exactly what a freshly constructed
service returns, because `fit_transform` re-learns the vocabulary from
the documents of the current call alone. -/
theorem find_similar_issues_independent_of_prior_requests {α : Type}
    [LinearOrderedField α] [FloorRing α] (sq : α → α) (w : PyStr → α)
    (stop : List PyStr) (sklearnAvailable : Bool) (st : ServiceState)
    (prior : List (DetectionRequest α)) (issues : List Issue) (title : PyStr)
    (description : Option PyStr) (threshold : α) (limit : Nat) :
    (find_similar_issues_stateful sq w stop sklearnAvailable
        (runRequests sq w stop sklearnAvailable st prior) issues title
        description threshold limit).2
      = (find_similar_issues_stateful sq w stop sklearnAvailable freshService
          issues title description threshold limit).2 := by
  rw [find_similar_issues_stateless, find_similar_issues_stateless]
